import Mathlib

/-!
Verification development for the Xen shadow-page-table engine
(`xen/arch/x86/mm/shadow/common.c`): shallow embedding of the shadow pool
allocator, the guest->shadow hash table, the out-of-sync (OOS) tracker and
the write-access-removal engine, together with theorems settling the
specification claims about them.

Machine integers are modelled as `Nat` (with explicit `% 2^32` where the C
code relies on 32-bit wrap-around, namely the hash function).  External
per-mode functions (`sh_resync_l1`, `sh_unpin`, `shadow_unhook_mappings`,
`guess_wrmap`, the per-type callbacks) are excluded collaborators of the
spec; their effect on the modelled state is represented by explicit oracle
parameters or event logs, as noted at each definition.
-/

set_option autoImplicit false

namespace XenShadow

/-! ## Shadow types and the size table

`sh_type_to_size` from common.c lines 59-77.  The `SH_type_*` constants
themselves live in `private.h`, which is not part of the source tree here;
the enumeration below is modelled from the spec's closed enumeration
("leaf-32/leaf-PAE/leaf-64, L2/L2H/L3/L4 variants, p2m table, monitor
table, OOS snapshot") and the designated initialisers of the C table. -/

inductive SHType where
  | l1_32
  | fl1_32
  | l2_32
  | l1_pae
  | fl1_pae
  | l2_pae
  | l1_64
  | fl1_64
  | l2_64
  | l2h_64
  | l3_64
  | l4_64
  | p2m_table
  | monitor_table
  | oos_snapshot
deriving DecidableEq, Repr

/-- The fixed lookup table `sh_type_to_size[]` (common.c lines 59-77). -/
def sh_type_to_size : SHType → Nat
  | .l1_32 => 2
  | .fl1_32 => 2
  | .l2_32 => 4
  | .l1_pae => 1
  | .fl1_pae => 1
  | .l2_pae => 1
  | .l1_64 => 1
  | .fl1_64 => 1
  | .l2_64 => 1
  | .l2h_64 => 1
  | .l3_64 => 1
  | .l4_64 => 1
  | .p2m_table => 1
  | .monitor_table => 1
  | .oos_snapshot => 1

/-- `shadow_size(type)`: accessor for `sh_type_to_size` (HVM build). -/
def shadow_size (t : SHType) : Nat := sh_type_to_size t

/-- `SH_type_min_shadow <= t <= SH_type_max_shadow`: the pagetable shadow
types proper (the range tested by `shadow_alloc` when setting the head
flag, and by the `SHF_page_type_mask` bits of `shadow_flags`). -/
def isPagetableShadow : SHType → Bool
  | .l1_32 | .fl1_32 | .l2_32 | .l1_pae | .fl1_pae | .l2_pae
  | .l1_64 | .fl1_64 | .l2_64 | .l2h_64 | .l3_64 | .l4_64 => true
  | _ => false

/-- The `SHF_L1_ANY` mask: guest pages shadowed as an innermost (leaf,
"L1") table.  Fixed-address (`fl1`) shadows carry a virtual-address
backpointer instead of a guest frame and are not in `SHF_L1_ANY`. -/
def isL1 : SHType → Bool
  | .l1_32 | .l1_pae | .l1_64 => true
  | _ => false

/-! ## The guest->shadow hash table (common.c lines 1426-1781)

A bucket chain (`next_shadow` links threaded through the shadow
`page_info` structs) is modelled as a `List` of the shadow-page records
that carry the fields the hash code reads: the backpointer `v.sh.back`,
the type `u.sh.type` and the page's own mfn. -/

structure SPage where
  back : Nat
  shtype : Nat
  smfn : Nat
deriving DecidableEq, Repr

/-- One iteration of the loop body of `sh_hash` (common.c lines 1436-1446):
`k = (uint8_t)n + (k << 6) + (k << 16) - k` in 32-bit arithmetic.
The accumulator is kept `< 2^32` by the outer `% 2^32`. -/
def sh_hash_step (b k : Nat) : Nat :=
  (b + k * 64 + k * 65536 + (2 ^ 32 - k)) % 2 ^ 32

/-- `sh_hash(n, t)` (common.c lines 1436-1446).  The iteration count
`(PADDR_BITS - PAGE_SHIFT + 7) / 8 = 5` uses `PADDR_BITS = 52` and
`PAGE_SHIFT = 12`, which live in headers outside the given tree
(x86 4-KiB pages and 52-bit physical addresses, as the spec's data model
assumes). -/
def sh_hash (n t : Nat) : Nat :=
  ((List.range 5).foldl (fun k i => sh_hash_step (n >>> (8 * i) % 256) k)
    (t % 2 ^ 32)) % 251

/-- `SHADOW_HASH_BUCKETS` (common.c line 1431). -/
def SHADOW_HASH_BUCKETS : Nat := 251

/-- Domain hash-table state: the bucket array `hash_table` plus the
`hash_walking` reorder-suppression flag. -/
structure HashState where
  table : Nat → List SPage
  hash_walking : Bool

/-- Split a bucket chain at the first entry matching `(n, t)` by
backpointer and type, returning (prefix before it, the entry, suffix).
This is the scan of `shadow_hash_lookup`'s `while` loop, with `prev`
represented by the returned first component. -/
def chainFind (n t : Nat) : List SPage → Option (List SPage × SPage × List SPage)
  | [] => none
  | sp :: rest =>
    if sp.back = n ∧ sp.shtype = t then some ([], sp, rest)
    else match chainFind n t rest with
      | none => none
      | some (pre, e, post) => some (sp :: pre, e, post)

/-- `shadow_hash_lookup(d, n, t)` (common.c lines 1561-1612).  Returns the
found shadow mfn (`INVALID_MFN` as `none`) and the possibly mutated state:
a found non-head entry is pulled to the front of its bucket unless
`hash_walking` is set. -/
def shadow_hash_lookup (st : HashState) (n t : Nat) : Option Nat × HashState :=
  let key := sh_hash n t
  match chainFind n t (st.table key) with
  | none => (none, st)
  | some ([], e, _) => (some e.smfn, st)
  | some (pre, e, post) =>
    if st.hash_walking then (some e.smfn, st)
    else (some e.smfn,
          { st with table := fun k => if k = key then e :: (pre ++ post) else st.table k })

/-- `shadow_hash_insert(d, n, t, smfn)` (common.c lines 1614-1637): link
the page `sp = mfn_to_page(smfn)` in at the top of bucket `sh_hash(n,t)`.
The caller has already stamped `sp`'s backpointer and type fields; `sp`
is therefore passed as the record itself. -/
def shadow_hash_insert (st : HashState) (n t : Nat) (sp : SPage) : HashState :=
  let key := sh_hash n t
  { st with table := fun k => if k = key then sp :: st.table k else st.table k }

/-- Remove the links to page `sp` from a chain: the head case, or the
first `x` with `next_shadow(x) = sp`; `none` when `sp` is not on the
chain (`shadow_hash_delete` then returns false). -/
def chainDelete (sp : SPage) : List SPage → Option (List SPage)
  | [] => none
  | x :: xs =>
    if x = sp then some xs
    else match chainDelete sp xs with
      | none => none
      | some ys => some (x :: ys)

/-- `shadow_hash_delete(d, n, t, smfn)` (common.c lines 1639-1681). -/
def shadow_hash_delete (st : HashState) (n t : Nat) (sp : SPage) : Bool × HashState :=
  let key := sh_hash n t
  match chainDelete sp (st.table key) with
  | none => (false, st)
  | some chain =>
    (true, { st with table := fun k => if k = key then chain else st.table k })

/-- Does a chain hold an entry for `(n, t)`? -/
def chainHasKey (n t : Nat) (l : List SPage) : Bool :=
  l.any (fun sp => sp.back = n && sp.shtype = t)

/-- The bucket walk of `hash_domain_foreach` (common.c lines 1762-1779)
over one chain: call back on every entry whose type is in the mask, and
stop when a callback reports done.  The callback observes the domain
state (as the C callbacks can); it returns only its `done` flag since
callbacks must not mutate the table mid-walk.  The trace of states at
which the callback fired is returned for the theorems. -/
def walkChain (st : HashState) (mask : Nat → Bool) (cb : HashState → SPage → Bool) :
    List SPage → Bool × List (HashState × SPage)
  | [] => (false, [])
  | x :: xs =>
    if mask x.shtype then
      if cb st x then (true, [(st, x)])
      else
        let (done, log) := walkChain st mask cb xs
        (done, (st, x) :: log)
    else walkChain st mask cb xs

/-- The outer bucket loop of `hash_domain_foreach`, bucket `i` upward. -/
def walkBuckets (st : HashState) (mask : Nat → Bool) (cb : HashState → SPage → Bool) :
    Nat → List (HashState × SPage)
  | 0 => []
  | Nat.succ m =>
    let i := SHADOW_HASH_BUCKETS - Nat.succ m
    let (done, log) := walkChain st mask cb (st.table i)
    if done then log else log ++ walkBuckets st mask cb m

/-- `hash_domain_foreach(d, mask, callbacks, mfn)` (common.c lines
1736-1781): asserts `hash_walking == 0`, sets it for the duration of the
walk, and clears it afterwards.  Returns the final state and the log of
callback invocations (each with the state it observed). -/
def hash_domain_foreach (st : HashState) (mask : Nat → Bool)
    (cb : HashState → SPage → Bool) : HashState × List (HashState × SPage) :=
  let walking : HashState := { st with hash_walking := true }
  let log := walkBuckets walking mask cb SHADOW_HASH_BUCKETS
  ({ walking with hash_walking := false }, log)

/-! ## The out-of-sync tracker (common.c lines 154-723)

Per-vcpu open-addressed hash with one second-chance slot.  The slot count
`SHADOW_OOS_PAGES` (from `private.h`, outside the given tree) is kept as a
parameter `K`, matching the spec's "OOS array of up to K guest frames".
`INVALID_MFN` entries are `none`.  Page contents are an abstract map
`mem : mfn -> contents`; `copy_domain_page` copies one page's contents
over another's.  `_sh_resync` dispatches to per-mode resync code (an
excluded collaborator), so the model records its target gmfns in a log. -/

/-- One `struct oos_fixup`: a ring of `SHADOW_OOS_FIXUPS` recorded
writable-mapping slots `(smfn, off)` plus the ring cursor `next`. -/
structure OosFixup where
  smfn : Nat → Option Nat
  off : Nat → Nat
  next : Nat

/-- The local `struct oos_fixup fixup = { .next = 0 }` of `oos_hash_add`,
with every `smfn` slot set to `INVALID_MFN`. -/
def freshFixup : OosFixup := { smfn := fun _ => none, off := fun _ => 0, next := 0 }

/-- Per-vcpu OOS tracker state: the `oos`, `oos_fixup` and `oos_snapshot`
arrays, the contents of every page (`mem`), and the log of gmfns handed
to `_sh_resync`. -/
structure OosState where
  oos : Nat → Option Nat
  oos_fixup : Nat → OosFixup
  oos_snapshot : Nat → Nat
  mem : Nat → Nat
  resyncs : List Nat

/-- `copy_domain_page(dst, src)` on the contents map. -/
def copy_domain_page (dst src : Nat) (mem : Nat → Nat) : Nat → Nat :=
  fun p => if p = dst then mem src else mem p

/-- `oos_hash_add(v, gmfn)` (common.c lines 487-523), for a tracker with
`K` slots.  If the primary slot `gmfn % K` holds an entry that itself
hashes there, that occupant is punted into slot `(gmfn % K + 1) % K`
(`SWAP`) together with its fixup record and, later, its snapshot page; if
the landing slot is still occupied, its occupant is crushed via
`_sh_resync` (logged).  Finally the incoming page's current contents are
snapshotted (`copy_domain_page(oos_snapshot[oidx], oos[oidx])`). -/
def oos_hash_add (K gmfn : Nat) (st : OosState) : OosState :=
  let idx := gmfn % K
  let oidx := idx
  let punt : Bool := match st.oos idx with
    | some occ => decide (occ % K = idx)
    | none => false
  if punt then
    let gmfn1 := (st.oos idx).getD 0
    let fixup1 := st.oos_fixup idx
    let oos1 : Nat → Option Nat := fun i => if i = idx then some gmfn else st.oos i
    let fx1 : Nat → OosFixup := fun i => if i = idx then freshFixup else st.oos_fixup i
    let idx1 := (idx + 1) % K
    let resyncs1 := match oos1 idx1 with
      | some victim => st.resyncs ++ [victim]
      | none => st.resyncs
    let oos2 : Nat → Option Nat := fun i => if i = idx1 then some gmfn1 else oos1 i
    let fx2 : Nat → OosFixup := fun i => if i = idx1 then fixup1 else fx1 i
    let snap2 : Nat → Nat := fun i =>
      if i = idx1 then st.oos_snapshot oidx
      else if i = oidx then st.oos_snapshot idx1
      else st.oos_snapshot i
    { oos := oos2, oos_fixup := fx2, oos_snapshot := snap2,
      mem := copy_domain_page (snap2 oidx) ((oos2 oidx).getD 0) st.mem,
      resyncs := resyncs1 }
  else
    let resyncs1 := match st.oos idx with
      | some victim => st.resyncs ++ [victim]
      | none => st.resyncs
    let oos2 : Nat → Option Nat := fun i => if i = idx then some gmfn else st.oos i
    let fx2 : Nat → OosFixup := fun i => if i = idx then freshFixup else st.oos_fixup i
    { oos := oos2, oos_fixup := fx2, oos_snapshot := st.oos_snapshot,
      mem := copy_domain_page (st.oos_snapshot oidx) ((oos2 oidx).getD 0) st.mem,
      resyncs := resyncs1 }

/-! ## Per-page shadow flags and the OOS invariant (C4)

A guest page's shadow bookkeeping: the `PGC_shadowed_pt` bit of
`count_info`, the set of shadow-type bits of `shadow_flags`
(`SHF_page_type_mask`), and the `SHF_out_of_sync` / `SHF_oos_may_write`
bits.  Bitmask membership is modelled as a `Finset SHType`. -/

structure GPage where
  shadowed_pt : Bool
  types : Finset SHType
  out_of_sync : Bool
  oos_may_write : Bool
deriving DecidableEq

/-- `page_is_out_of_sync(pg)`.  Modelled from the spec (`private.h` is
outside the given tree): the page is shadowed and carries the
out-of-sync flag. -/
def page_is_out_of_sync (pg : GPage) : Bool := pg.shadowed_pt && pg.out_of_sync

/-- The shadow-type bits of `shadow_flags` (`SHF_page_type_mask`). -/
def ptTypes (pg : GPage) : Finset SHType :=
  pg.types.filter (fun t => isPagetableShadow t = true)

/-- `sh_page_has_multiple_shadows(pg)`.  Modelled from the spec
(`private.h` is outside the given tree): more than one shadow-type bit
set on a shadowed page. -/
def sh_page_has_multiple_shadows (pg : GPage) : Bool :=
  pg.shadowed_pt && decide (2 ≤ (ptTypes pg).card)

/-- The shadow-type bits outside `SHF_L1_ANY`
(`shadow_flags & (SHF_page_type_mask & ~SHF_L1_ANY)`). -/
def nonLeafTypes (pg : GPage) : Finset SHType :=
  pg.types.filter (fun t => (isPagetableShadow t && !isL1 t) = true)

/-- The refusal guard of `sh_unsync` (common.c lines 706-711): shadowed at
a non-leaf type or already out of sync, multiply shadowed, vcpu not HVM,
or the domain's OOS optimisation inactive. -/
def sh_unsync_refuse (hvm oos_active : Bool) (pg : GPage) : Bool :=
  decide (nonLeafTypes pg ≠ ∅) || pg.out_of_sync
    || sh_page_has_multiple_shadows pg || !hvm || !oos_active

/-- `sh_unsync(v, gmfn)` (common.c lines 693-721), restricted to its
effect on the page's flags (the `oos_hash_add` call mutates the per-vcpu
tracker, modelled separately).  Returns the updated page and the C return
value (`0` = refused as `false`). -/
def sh_unsync (hvm oos_active : Bool) (pg : GPage) : GPage × Bool :=
  if sh_unsync_refuse hvm oos_active pg then (pg, false)
  else ({ pg with out_of_sync := true, oos_may_write := true }, true)

/-- Effect of `_sh_resync` (common.c lines 452-483) on the page's flags.
If `oos_remove_write_access` found an unfindable writable reference
(`unshadowed = true`), the page was fully unshadowed instead
(`shadow_remove_all_shadows`: every type demoted and `PGC_shadowed_pt`
cleared); otherwise the OOS bits are cleared. -/
def sh_resync_effect (unshadowed : Bool) (pg : GPage) : GPage :=
  if unshadowed then { pg with shadowed_pt := false, types := ∅ }
  else { pg with oos_may_write := false, out_of_sync := false }

/-- `shadow_promote(d, gmfn, type)` (common.c lines 732-762): resync first
if the page is out of sync (`u` picks the `_sh_resync` outcome), then on
first promotion (`test_and_set_bit` of `_PGC_shadowed_pt` was clear)
reset `shadow_flags` to zero, and finally set the new type bit. -/
def shadow_promote (u : Bool) (pg : GPage) (t : SHType) : GPage :=
  let pg1 := if page_is_out_of_sync pg then sh_resync_effect u pg else pg
  let pg2 := if pg1.shadowed_pt then pg1
             else { shadowed_pt := true, types := ∅,
                    out_of_sync := false, oos_may_write := false }
  { pg2 with types := insert t pg2.types }

/-- `shadow_demote(d, gmfn, type)` (common.c lines 764-786): clear the
type bit; when no shadow-type bit remains, drop the page from the OOS
tracker if needed (tracker modelled separately) and clear
`PGC_shadowed_pt`. -/
def shadow_demote (pg : GPage) (t : SHType) : GPage :=
  let types' := pg.types.erase t
  if (types'.filter (fun u => isPagetableShadow u = true)).card = 0 then
    { pg with types := types', shadowed_pt := false }
  else { pg with types := types' }

/-- Per-page states reachable through the shadow-flag operations, from an
unshadowed page.  Each constructor's hypotheses are the corresponding C
function's `ASSERT`ed preconditions. -/
inductive Reachable : GPage → Prop where
  | start : Reachable ⟨false, ∅, false, false⟩
  | unsync (hvm act : Bool) {pg : GPage} :
      Reachable pg → Reachable (sh_unsync hvm act pg).1
  | resync (u : Bool) {pg : GPage} :
      Reachable pg → page_is_out_of_sync pg = true →
      Reachable (sh_resync_effect u pg)
  | promote (u : Bool) (t : SHType) {pg : GPage} :
      Reachable pg → isPagetableShadow t = true →
      t ∉ (if page_is_out_of_sync pg then sh_resync_effect u pg else pg).types →
      Reachable (shadow_promote u pg t)
  | demote (t : SHType) {pg : GPage} :
      Reachable pg → pg.shadowed_pt = true → t ∈ pg.types →
      Reachable (shadow_demote pg t)

/-- The inductive invariant for C4: all type bits are shadow types, a
shadowed page has at least one, and an out-of-sync page is shadowed as
exactly one leaf (L1) type. -/
def GInv (pg : GPage) : Prop :=
  (∀ t ∈ pg.types, isPagetableShadow t = true) ∧
  (pg.shadowed_pt = true → pg.types.Nonempty) ∧
  (page_is_out_of_sync pg = true →
    pg.types.card = 1 ∧ ∀ t ∈ pg.types, isL1 t = true)

/-! ## Pool accounting: prealloc and resize (common.c lines 873-1424)

Counter-level state of a domain's shadow pool.  `sh_unpin` and
`shadow_unhook_mappings` are dispatchers into per-mode destructors
(excluded collaborators); how many pool pages each unpin / unhook
releases is therefore an oracle: `pinned` lists, per pinned top-level
shadow, the pages its unpinning frees, and `slots` lists, per loaded
top-level shadow-table slot across all vcpus, the pages its unhook
frees. -/

structure DomState where
  total_pages : Nat
  free_pages : Nat
  p2m_pages : Nat
  heap : Nat
  is_dying : Bool
  is_shutting_down : Bool
  shutdown_crash : Bool
  has_vcpu0 : Bool
  pinned : List Nat
  slots : List Nat
  shadow_enabled : Bool
  max_vcpus : Nat
  domain_tot : Nat
  is_hvm : Bool
  crashed : Bool

/-- Reclamation events of `_shadow_prealloc`, with the pages each
released. -/
inductive PEvent where
  | unpin (amt : Nat)
  | unhook (amt : Nat)
deriving DecidableEq, Repr

/-- Pages released by an event. -/
def PEvent.amt : PEvent → Nat
  | .unpin a => a
  | .unhook a => a

/-- Is the event an unpin (stage one)? -/
def PEvent.isUnpin : PEvent → Bool
  | .unpin _ => true
  | .unhook _ => false

/-- Stage one of `_shadow_prealloc` (common.c lines 948-961): walk the
pinned-shadows list, unpinning each (which releases its pages to the
pool) and stopping as soon as `free_pages` reaches the request.  Returns
(reached target?, new free_pages, remaining pinned list, events). -/
def prealloc_stage1 (pages free : Nat) :
    List Nat → Bool × Nat × List Nat × List PEvent
  | [] => (false, free, [], [])
  | a :: rest =>
    if pages ≤ free + a then (true, free + a, rest, [.unpin a])
    else
      let r := prealloc_stage1 pages (free + a) rest
      (r.1, r.2.1, r.2.2.1, .unpin a :: r.2.2.2)

/-- Stage two of `_shadow_prealloc` (common.c lines 963-986): unhook the
non-Xen mappings of every vcpu's loaded top-level shadows, stopping as
soon as `free_pages` reaches the request. -/
def prealloc_stage2 (pages free : Nat) : List Nat → Bool × Nat × List PEvent
  | [] => (false, free, [])
  | a :: rest =>
    if pages ≤ free + a then (true, free + a, [.unhook a])
    else
      let r := prealloc_stage2 pages (free + a) rest
      (r.1, r.2.1, .unhook a :: r.2.2)

/-- `_shadow_prealloc(d, pages)` (common.c lines 930-1000). -/
def _shadow_prealloc (pages : Nat) (st : DomState) : Bool × DomState × List PEvent :=
  if pages ≤ st.free_pages then (true, st, [])
  else if st.is_dying then (false, st, [])
  else if !st.has_vcpu0 then (false, st, [])
  else
    let r1 := prealloc_stage1 pages st.free_pages st.pinned
    if r1.1 then
      (true, { st with free_pages := r1.2.1, pinned := r1.2.2.1 }, r1.2.2.2)
    else
      let r2 := prealloc_stage2 pages r1.2.1 st.slots
      (r2.1, { st with free_pages := r2.2.1, pinned := r1.2.2.1 },
       r1.2.2.2 ++ r2.2.2)

/-- `shadow_prealloc(d, type, count)` (common.c lines 1007-1023): returns
false at once for a dying domain; otherwise runs `_shadow_prealloc` for
`shadow_size(type) * count` pages and crashes the domain on failure
unless it is already shutting down with a crash code. -/
def shadow_prealloc (st : DomState) (ty : SHType) (count : Nat) :
    Bool × DomState × List PEvent :=
  if st.is_dying then (false, st, [])
  else
    let r := _shadow_prealloc (shadow_size ty * count) st
    if !r.1 && (!r.2.1.is_shutting_down || !r.2.1.shutdown_crash) then
      (r.1, { r.2.1 with crashed := true }, r.2.2)
    else r

/-- `shadow_min_acceptable_pages(d)` (common.c lines 885-888). -/
def shadow_min_acceptable_pages (st : DomState) : Nat := st.max_vcpus * 128

/-- `CONFIG_PAGING_LEVELS` on x86-64. -/
def CONFIG_PAGING_LEVELS : Nat := 4

/-- `sh_min_allocation(d)` (common.c lines 1333-1345). -/
def sh_min_allocation (st : DomState) : Nat :=
  shadow_min_acceptable_pages st +
    max (max (st.domain_tot / 256)
             (if st.is_hvm then CONFIG_PAGING_LEVELS + 2 else 0)
         + (if st.is_hvm then 1 else 0))
        st.p2m_pages

/-- `ENOMEM` and `EINVAL` errno values. -/
def ENOMEM : Int := 12

def EINVAL : Int := 22

/-- One shrink iteration of `shadow_set_allocation` (common.c lines
1386-1402): reclaim one free page via `_shadow_prealloc(d, 1)`, then
return the freelist head to the domheap. -/
def sal_shrink_step (st : DomState) : Bool × DomState :=
  let r := _shadow_prealloc 1 st
  if !r.1 then (false, r.2.1)
  else (true, { r.2.1 with free_pages := r.2.1.free_pages - 1,
                           total_pages := r.2.1.total_pages - 1 })

theorem _shadow_prealloc_total (pages : Nat) (st : DomState) :
    ((_shadow_prealloc pages st).2.1).total_pages = st.total_pages := by
  unfold _shadow_prealloc
  split
  · rfl
  · split
    · rfl
    · split
      · rfl
      · dsimp only
        split <;> rfl

theorem sal_shrink_step_total (st : DomState) (st' : DomState)
    (h : sal_shrink_step st = (true, st')) :
    st'.total_pages = st.total_pages - 1 := by
  unfold sal_shrink_step at h
  rcases hr : _shadow_prealloc 1 st with ⟨ok, st1, evs⟩
  rw [hr] at h
  dsimp only at h
  by_cases hok : ok = true
  · subst hok
    simp only [Bool.not_true, Bool.false_eq_true, if_false] at h
    have hT : st1.total_pages = st.total_pages := by
      simpa [hr] using _shadow_prealloc_total 1 st
    cases h
    dsimp only
    omega
  · simp only [Bool.not_eq_true] at hok
    subst hok
    simp at h

/-- The `for (;;)` loop of `shadow_set_allocation` (common.c lines
1366-1412): grow by one domheap page or shrink by one page per
iteration, with a cooperative-preemption check (`pr k` is the
`general_preempt_check()` oracle at the `k`-th check; `hasPre` is
whether the caller passed a `preempted` pointer).  Returns
(rc, preempted, state). -/
def sal_loop (pages : Nat) (hasPre : Bool) (pr : Nat → Bool) (k : Nat)
    (st : DomState) : Int × Bool × DomState :=
  if st.total_pages < pages then
    if st.heap = 0 then (-ENOMEM, false, st)
    else
      let st' : DomState :=
        { st with heap := st.heap - 1, free_pages := st.free_pages + 1,
                  total_pages := st.total_pages + 1 }
      if hasPre && pr k then (0, true, st')
      else sal_loop pages hasPre pr (k + 1) st'
  else if pages < st.total_pages then
    match h : sal_shrink_step st with
    | (false, st1) => (-ENOMEM, false, st1)
    | (true, st') =>
      if hasPre && pr k then (0, true, st')
      else sal_loop pages hasPre pr (k + 1) st'
  else (0, false, st)
termination_by (pages - st.total_pages) + (st.total_pages - pages)
decreasing_by
  · omega
  · have := sal_shrink_step_total st st' h
    omega

/-- `shadow_set_allocation(d, pages, preempted)` (common.c lines
1347-1415): a nonzero target is clamped up to `sh_min_allocation` and
the p2m pages it covers are discounted; then the pool is resized one
page at a time. -/
def shadow_set_allocation (st : DomState) (pages0 : Nat) (hasPre : Bool)
    (pr : Nat → Bool) : Int × Bool × DomState :=
  let pages := if 0 < pages0
    then max pages0 (sh_min_allocation st) - st.p2m_pages
    else pages0
  sal_loop pages hasPre pr 0 st

/-- The `XEN_DOMCTL_SHADOW_OP_SET_ALLOCATION` arm of `shadow_domctl`
(common.c lines 3272-3292): a zero megabyte target is rejected with
`-EINVAL` while shadow mode is enabled; otherwise the target is
converted to pages (`mb << (20 - PAGE_SHIFT)` with 4-KiB pages, i.e.
`mb * 256`) and handed to `shadow_set_allocation` with a preemption
pointer. -/
def shadow_domctl_set_allocation (mb : Nat) (pr : Nat → Bool) (st : DomState) :
    Int × Bool × DomState :=
  if mb = 0 ∧ st.shadow_enabled = true then (-EINVAL, false, st)
  else shadow_set_allocation st (mb * 256) true pr

/-! ## The shadow allocator proper (common.c lines 1091-1257)

Page-level state: the pool's free list of `page_info` records and the
counters.  A multi-page shadow object is the list of its constituent
pages in the order they are chained from the head page (the C threads
them through the pages' own list entries; `shadow_free` walks that
chain, modelled by passing the object).  Page contents and TLB
timestamps only drive the external flush machinery and are not
modelled. -/

structure PageInfo where
  mfn : Nat
  shtype : Option SHType
  pinned : Bool
  count : Nat
  head : Bool
  back : Nat
deriving DecidableEq, Repr

structure AllocState where
  freelist : List PageInfo
  free_pages : Nat
  total_pages : Nat
  is_dying : Bool
deriving DecidableEq, Repr

/-- `shadow_alloc(d, shadow_type, backpointer)` (common.c lines
1107-1181): take `shadow_size(type)` pages off the free list, stamp
their type and backpointer fields, and mark the returned (last-removed)
page as the shadow's head when the type is a pagetable-shadow type.
`none` is the `BUG()` path (allocation without prealloc) or an
inconsistent freelist. -/
def shadow_alloc (st : AllocState) (ty : SHType) (back : Nat) :
    Option (List PageInfo × AllocState) :=
  let pages := shadow_size ty
  if st.free_pages < pages then none
  else if st.freelist.length < pages then none
  else
    let inited := (st.freelist.take pages).map fun sp =>
      { sp with shtype := some ty, pinned := false, count := 0,
                head := false, back := back }
    match inited.reverse with
    | [] => none
    | h :: rest =>
      let obj := (if isPagetableShadow ty then { h with head := true } else h) :: rest
      some (obj, { st with freelist := st.freelist.drop pages,
                           free_pages := st.free_pages - pages })

/-- `shadow_free(d, smfn)` (common.c lines 1185-1257): read the size from
the head page's type, strip type and head from each constituent page,
and either return the pages to the free list (live domain) or release
them to the system and shrink `total_pages` (dying domain).  `none` is a
failed `ASSERT` (free of a non-head page or of a typeless page). -/
def shadow_free (st : AllocState) (obj : List PageInfo) : Option AllocState :=
  match obj with
  | [] => none
  | sp :: _ =>
    match sp.shtype with
    | none => none
    | some ty =>
      if !(sp.head || !isPagetableShadow ty) then none
      else
        let pages := shadow_size ty
        let freed := (obj.take pages).map fun p =>
          { p with shtype := (none : Option SHType), head := false }
        if st.is_dying then
          some { st with total_pages := st.total_pages - pages }
        else
          some { st with freelist := st.freelist ++ freed,
                         free_pages := st.free_pages + pages }

/-! ## Write-access removal (common.c lines 1872-2079)

`sh_remove_write_access(d, gmfn, level, fault_addr)`.  The guest page's
relevant `page_info` fields are `WraPage`; the heuristic tiers (the
per-mode `guess_wrmap` address guesses plus the remembered
`last_writeable_pte_smfn`) and the brute-force hash walk only ever
*remove* writable mappings through per-mode callbacks (excluded
collaborators), so their effect is modelled by two oracles: `countH`,
the writable typecount left after the heuristic tiers, and `countB`,
the typecount left after the brute-force walk (theorems assume
`countB ≤ countH ≤ count`).  The returned flag records whether
`domain_crash` was called. -/

structure WraPage where
  is_pagetable : Bool
  oos_may_write : Bool
  type_writable : Bool
  count : Nat
deriving DecidableEq, Repr

def sh_remove_write_access (refcounts : Bool) (level : Nat)
    (countH countB : Nat) (pg : WraPage) : Int × Bool :=
  if !refcounts then (0, false)
  else if (pg.is_pagetable && !pg.oos_may_write) || pg.count = 0 then (0, false)
  else
    let crash0 := !pg.type_writable
    if countH = 0 then (1, crash0)
    else if countB ≠ 0 then
      if level = 0 then (-1, crash0) else (1, true)
    else (1, crash0)

/-! ## Theorems: the hash table (C5, C6) -/

theorem chainFind_of_no_key (n t : Nat) (l : List SPage)
    (h : chainHasKey n t l = false) : chainFind n t l = none := by
  induction l with
  | nil => rfl
  | cons x xs ih =>
    simp only [chainHasKey, List.any_cons, Bool.or_eq_false_iff,
      Bool.and_eq_false_iff] at h
    unfold chainFind
    have hx : ¬(x.back = n ∧ x.shtype = t) := by
      rcases h.1 with h' | h' <;> simp_all
    rw [if_neg hx, ih]
    · exact h.2

/-- C5: after `shadow_hash_insert(d, n, t, smfn)` (whose caller has
stamped the page's backpointer to `n` and type to `t`, as all callers
do), `shadow_hash_lookup(d, n, t)` returns exactly that shadow frame;
and after a successful `shadow_hash_delete(d, n, t, smfn)`, provided no
other entry with key `(n, t)` remains on the bucket chain, lookup
reports not-found (`INVALID_MFN`). -/
theorem hash_insert_lookup_delete_spec (st : HashState) (n t : Nat) (sp : SPage)
    (hb : sp.back = n) (ht : sp.shtype = t) :
    (shadow_hash_lookup (shadow_hash_insert st n t sp) n t).1 = some sp.smfn ∧
    (∀ st', shadow_hash_delete st n t sp = (true, st') →
      chainHasKey n t (st'.table (sh_hash n t)) = false →
      (shadow_hash_lookup st' n t).1 = none) := by
  constructor
  · have hcf : ∀ l, chainFind n t (sp :: l) = some ([], sp, l) := by
      intro l
      simp only [chainFind]
      rw [if_pos ⟨hb, ht⟩]
    unfold shadow_hash_insert shadow_hash_lookup
    dsimp only
    rw [if_pos rfl, hcf]
  · intro st' hdel hkey
    unfold shadow_hash_lookup
    dsimp only
    rw [chainFind_of_no_key n t _ hkey]

theorem walkChain_observes (s : HashState) (mask : Nat → Bool)
    (cb : HashState → SPage → Bool) (l : List SPage) :
    ∀ p ∈ (walkChain s mask cb l).2, p.1 = s := by
  induction l with
  | nil => intro p hp; simp [walkChain] at hp
  | cons x xs ih =>
    intro p hp
    unfold walkChain at hp
    by_cases hm : mask x.shtype
    · rw [if_pos hm] at hp
      by_cases hc : cb s x
      · rw [if_pos hc] at hp
        simp at hp
        rw [hp]
      · rw [if_neg hc] at hp
        simp only [List.mem_cons] at hp
        rcases hp with hp | hp
        · rw [hp]
        · exact ih p hp
    · rw [if_neg hm] at hp
      exact ih p hp

theorem walkBuckets_observes (s : HashState) (mask : Nat → Bool)
    (cb : HashState → SPage → Bool) (m : Nat) :
    ∀ p ∈ walkBuckets s mask cb m, p.1 = s := by
  induction m with
  | zero => intro p hp; simp [walkBuckets] at hp
  | succ m ih =>
    intro p hp
    unfold walkBuckets at hp
    dsimp only at hp
    split at hp
    · exact walkChain_observes s mask cb _ p hp
    · rcases List.mem_append.1 hp with hp | hp
      · exact walkChain_observes s mask cb _ p hp
      · exact ih p hp

/-- C6: `shadow_hash_lookup` pulls a found non-head entry to the head of
its bucket chain when `hash_walking` is clear; when `hash_walking` is
set it still returns the correct shadow frame but leaves the whole
table untouched; and `hash_domain_foreach` runs every callback with
`hash_walking` set and clears it when the walk finishes, leaving the
chains as they were. -/
theorem hash_pull_to_front_spec :
    (∀ (st : HashState) (n t : Nat) (pre post : List SPage) (e : SPage),
      st.hash_walking = false →
      chainFind n t (st.table (sh_hash n t)) = some (pre, e, post) →
      pre ≠ [] →
      shadow_hash_lookup st n t =
        (some e.smfn,
         { st with table := fun k =>
             if k = sh_hash n t then e :: (pre ++ post) else st.table k })) ∧
    (∀ (st : HashState) (n t : Nat), st.hash_walking = true →
      (shadow_hash_lookup st n t).2 = st ∧
      (∀ pre post e, chainFind n t (st.table (sh_hash n t)) = some (pre, e, post) →
        (shadow_hash_lookup st n t).1 = some e.smfn)) ∧
    (∀ (st : HashState) (mask : Nat → Bool) (cb : HashState → SPage → Bool),
      (hash_domain_foreach st mask cb).1.hash_walking = false ∧
      (hash_domain_foreach st mask cb).1.table = st.table ∧
      (∀ p ∈ (hash_domain_foreach st mask cb).2, p.1.hash_walking = true)) := by
  refine ⟨?_, ?_, ?_⟩
  · intro st n t pre post e hw hfind hpre
    obtain ⟨p, ps, rfl⟩ : ∃ p ps, pre = p :: ps := by
      cases pre with
      | nil => exact absurd rfl hpre
      | cons p ps => exact ⟨p, ps, rfl⟩
    unfold shadow_hash_lookup
    dsimp only
    rw [hfind]
    dsimp only
    rw [hw]
    simp
  · intro st n t hw
    constructor
    · unfold shadow_hash_lookup
      dsimp only
      rcases hf : chainFind n t (st.table (sh_hash n t)) with _ | ⟨pre, e, post⟩
      · rfl
      · cases pre with
        | nil => rfl
        | cons p ps =>
          dsimp only
          rw [hw]
          simp
    · intro pre post e hfind
      unfold shadow_hash_lookup
      dsimp only
      rw [hfind]
      cases pre with
      | nil => rfl
      | cons p ps =>
        dsimp only
        rw [hw]
        simp
  · intro st mask cb
    refine ⟨rfl, rfl, ?_⟩
    intro p hp
    have := walkBuckets_observes { st with hash_walking := true } mask cb
      SHADOW_HASH_BUCKETS p hp
    rw [this]

/-- A concrete empty hash table. -/
def stW : HashState := { table := fun _ => [], hash_walking := false }

/-- A concrete shadow page stamped for key (5, 1). -/
def spW : SPage := { back := 5, shtype := 1, smfn := 42 }

theorem hash_insert_lookup_delete_witness :
    (shadow_hash_lookup (shadow_hash_insert stW 5 1 spW) 5 1).1 = some 42 :=
  (hash_insert_lookup_delete_spec stW 5 1 spW rfl rfl).1

/-- A non-matching chain head for the pull-to-front witness. -/
def e1W : SPage := { back := 6, shtype := 1, smfn := 7 }

/-- The matching non-head entry for the pull-to-front witness. -/
def e2W : SPage := { back := 5, shtype := 1, smfn := 42 }

/-- A table whose every bucket chain is `[e1W, e2W]`. -/
def stW2 : HashState := { table := fun _ => [e1W, e2W], hash_walking := false }

theorem hash_pull_to_front_witness :
    shadow_hash_lookup stW2 5 1 =
      (some 42,
       { stW2 with table := fun k =>
           if k = sh_hash 5 1 then e2W :: ([e1W] ++ []) else stW2.table k }) :=
  hash_pull_to_front_spec.1 stW2 5 1 [e1W] [] e2W rfl rfl (by simp)

/-! ## Theorems: the OOS tracker second-chance policy (C1) -/

theorem succ_mod_ne (K p : Nat) (h2 : 2 ≤ K) (hp : p < K) : (p + 1) % K ≠ p := by
  rcases Nat.lt_or_ge (p + 1) K with h | h
  · rw [Nat.mod_eq_of_lt h]
    omega
  · have hK : p + 1 = K := by omega
    rw [hK, Nat.mod_self]
    omega

/-- A concrete initial tracker: all slots empty, snapshot page `100 + i`
for slot `i`, and page contents `mem p = p`. -/
def oosEmpty : OosState :=
  { oos := fun _ => none, oos_fixup := fun _ => freshFixup,
    oos_snapshot := fun i => 100 + i, mem := fun p => p, resyncs := [] }

/-- C1 counterexample: with `K = 3` slots, insert gmfns 3, 6, 9 (all
hashing to primary slot 0).  At the third insertion both slot 0
(occupant 6) and slot 1 (occupant 3) are full, yet the page handed to
`_sh_resync` is 3 — the occupant of the *second-chance* slot — while the
primary slot's occupant 6 is punted into the second-chance slot, contrary
to the claim that the primary occupant is the one forcibly resynced. -/
theorem oos_hash_add_counterexample :
    (oos_hash_add 3 6 (oos_hash_add 3 3 oosEmpty)).oos 0 = some 6 ∧
    (oos_hash_add 3 6 (oos_hash_add 3 3 oosEmpty)).oos 1 = some 3 ∧
    (oos_hash_add 3 9 (oos_hash_add 3 6 (oos_hash_add 3 3 oosEmpty))).resyncs = [3] ∧
    (oos_hash_add 3 9 (oos_hash_add 3 6 (oos_hash_add 3 3 oosEmpty))).oos 0 = some 9 ∧
    (oos_hash_add 3 9 (oos_hash_add 3 6 (oos_hash_add 3 3 oosEmpty))).oos 1 = some 6 ∧
    (3 : Nat) ≠ 6 :=
  ⟨rfl, rfl, rfl, rfl, rfl, by decide⟩

/-- C1 amended: inserting a second gmfn that hashes to an occupied
primary slot punts the first occupant into the second-chance slot
`(key+1) mod K`, its snapshot page (and that page's contents) moving
with it, while the incoming gmfn's current contents are snapshotted; and
when a third gmfn hashing to the same primary slot arrives while both
slots are occupied, the occupant of the *second-chance* slot is the one
forcibly resynced via `_sh_resync`, the primary occupant being punted
into the second-chance slot to make room. -/
theorem oos_hash_add_spec :
    (∀ (K p g1 g2 : Nat) (st : OosState),
      2 ≤ K → g1 % K = p → g2 % K = p →
      st.oos p = some g1 → st.oos ((p + 1) % K) = none →
      st.oos_snapshot p ≠ st.oos_snapshot ((p + 1) % K) →
      (oos_hash_add K g2 st).oos p = some g2 ∧
      (oos_hash_add K g2 st).oos ((p + 1) % K) = some g1 ∧
      (oos_hash_add K g2 st).resyncs = st.resyncs ∧
      (oos_hash_add K g2 st).oos_snapshot ((p + 1) % K) = st.oos_snapshot p ∧
      (oos_hash_add K g2 st).mem (st.oos_snapshot p) = st.mem (st.oos_snapshot p) ∧
      (oos_hash_add K g2 st).mem ((oos_hash_add K g2 st).oos_snapshot p) = st.mem g2) ∧
    (∀ (K p g1 g2 g3 : Nat) (st : OosState),
      2 ≤ K → g2 % K = p → g3 % K = p →
      st.oos p = some g2 → st.oos ((p + 1) % K) = some g1 →
      (oos_hash_add K g3 st).resyncs = st.resyncs ++ [g1] ∧
      (oos_hash_add K g3 st).oos p = some g3 ∧
      (oos_hash_add K g3 st).oos ((p + 1) % K) = some g2) := by
  constructor
  · intro K p g1 g2 st hK h1 h2 hp hq hsnap
    have hpK : p < K := by
      rw [← h2]
      exact Nat.mod_lt _ (by omega)
    have hne : (p + 1) % K ≠ p := succ_mod_ne K p hK hpK
    have hne' : p ≠ (p + 1) % K := Ne.symm hne
    unfold oos_hash_add
    dsimp only
    rw [h2, hp]
    simp only [h1, eq_self_iff_true, decide_True, if_true]
    refine ⟨?_, ?_, ?_, ?_, ?_, ?_⟩ <;>
      simp [copy_domain_page, hne, hne', hq, hsnap]
  · intro K p g1 g2 g3 st hK h2 h3 hp hq
    have hpK : p < K := by
      rw [← h2]
      exact Nat.mod_lt _ (by omega)
    have hne : (p + 1) % K ≠ p := succ_mod_ne K p hK hpK
    have hne' : p ≠ (p + 1) % K := Ne.symm hne
    unfold oos_hash_add
    dsimp only
    rw [h3, hp]
    simp only [h2, eq_self_iff_true, decide_True, if_true]
    refine ⟨?_, ?_, ?_⟩ <;> simp [hne, hne', hq]

theorem oos_hash_add_spec_witness :
    (oos_hash_add 3 6 (oos_hash_add 3 3 oosEmpty)).oos ((0 + 1) % 3) = some 3 :=
  (oos_hash_add_spec.1 3 0 3 6 (oos_hash_add 3 3 oosEmpty)
    (by decide) (by decide) (by decide) rfl rfl (by decide)).2.1

/-! ## Theorems: the OOS leaf-only invariant (C4) -/

theorem ptTypes_eq_types (pg : GPage)
    (h : ∀ t ∈ pg.types, isPagetableShadow t = true) : ptTypes pg = pg.types := by
  unfold ptTypes
  exact Finset.filter_eq_self.mpr (fun t ht => h t ht)

theorem ginv_start : GInv ⟨false, ∅, false, false⟩ := by
  refine ⟨?_, ?_, ?_⟩ <;> simp [GInv, page_is_out_of_sync]

theorem ginv_resync (u : Bool) (pg : GPage) (h : GInv pg) :
    GInv (sh_resync_effect u pg) := by
  obtain ⟨h1, h2, h3⟩ := h
  unfold sh_resync_effect
  by_cases hu : u = true
  · rw [if_pos hu]
    refine ⟨?_, ?_, ?_⟩ <;> simp [page_is_out_of_sync]
  · rw [if_neg hu]
    refine ⟨h1, h2, ?_⟩
    intro hoos
    simp [page_is_out_of_sync] at hoos

theorem ginv_unsync (hvm act : Bool) (pg : GPage) (h : GInv pg) :
    GInv (sh_unsync hvm act pg).1 := by
  obtain ⟨h1, h2, h3⟩ := h
  unfold sh_unsync
  by_cases hr : sh_unsync_refuse hvm act pg = true
  · rw [if_pos hr]
    exact ⟨h1, h2, h3⟩
  · rw [if_neg hr]
    dsimp only
    refine ⟨h1, h2, ?_⟩
    intro hoos
    have hsh : pg.shadowed_pt = true := by
      simpa [page_is_out_of_sync] using hoos
    have hb : sh_unsync_refuse hvm act pg = false := by simpa using hr
    unfold sh_unsync_refuse at hb
    simp only [Bool.or_eq_false_iff, decide_eq_false_iff_not, not_not] at hb
    obtain ⟨⟨⟨⟨hnl', hoosf⟩, hmult⟩, h4⟩, h5⟩ := hb
    have hcard : pg.types.card ≤ 1 := by
      by_contra hgt
      have h2le : 2 ≤ (ptTypes pg).card := by
        rw [ptTypes_eq_types pg h1]
        omega
      have hm : sh_page_has_multiple_shadows pg = true := by
        unfold sh_page_has_multiple_shadows
        rw [hsh]
        simp [h2le]
      rw [hm] at hmult
      simp at hmult
    have hne : pg.types.Nonempty := h2 hsh
    constructor
    · show pg.types.card = 1
      have := Finset.card_pos.mpr hne
      omega
    · intro t ht
      by_cases hl : isL1 t = true
      · exact hl
      · exfalso
        have : t ∈ nonLeafTypes pg := by
          unfold nonLeafTypes
          rw [Finset.mem_filter]
          refine ⟨ht, ?_⟩
          simp [h1 t ht, hl]
        rw [hnl'] at this
        exact absurd this (Finset.not_mem_empty t)

theorem ginv_promote (u : Bool) (t : SHType) (pg : GPage) (h : GInv pg)
    (hpt : isPagetableShadow t = true) : GInv (shadow_promote u pg t) := by
  have h' : GInv (if page_is_out_of_sync pg then sh_resync_effect u pg else pg) := by
    by_cases hc : page_is_out_of_sync pg = true
    · rw [if_pos hc]
      exact ginv_resync u pg h
    · rw [if_neg hc]
      exact h
  have hoos1 : page_is_out_of_sync
      (if page_is_out_of_sync pg then sh_resync_effect u pg else pg) = false := by
    by_cases hc : page_is_out_of_sync pg = true
    · rw [if_pos hc]
      by_cases hu : u = true <;> simp [sh_resync_effect, page_is_out_of_sync, hu]
    · rw [if_neg hc]
      exact Bool.not_eq_true _ ▸ (by simpa using hc)
  unfold shadow_promote
  dsimp only
  set pg1 := if page_is_out_of_sync pg then sh_resync_effect u pg else pg with hpg1
  obtain ⟨g1, g2, g3⟩ := h'
  by_cases hsh : pg1.shadowed_pt = true
  · rw [if_pos hsh]
    have hoosf : pg1.out_of_sync = false := by
      simp only [page_is_out_of_sync, hsh, Bool.true_and] at hoos1
      exact hoos1
    refine ⟨?_, ?_, ?_⟩
    · intro s hs
      rcases Finset.mem_insert.mp hs with rfl | hs
      · exact hpt
      · exact g1 s hs
    · intro _
      exact ⟨t, Finset.mem_insert_self t _⟩
    · intro hoos
      simp [page_is_out_of_sync, hoosf] at hoos
  · rw [if_neg hsh]
    refine ⟨?_, ?_, ?_⟩
    · intro s hs
      rcases Finset.mem_insert.mp hs with rfl | hs
      · exact hpt
      · exact absurd hs (Finset.not_mem_empty s)
    · intro _
      exact ⟨t, Finset.mem_insert_self t _⟩
    · intro hoos
      simp [page_is_out_of_sync] at hoos

theorem ginv_demote (t : SHType) (pg : GPage) (h : GInv pg)
    (hs : pg.shadowed_pt = true) (ht : t ∈ pg.types) : GInv (shadow_demote pg t) := by
  obtain ⟨h1, h2, h3⟩ := h
  unfold shadow_demote
  dsimp only
  by_cases hc : ((pg.types.erase t).filter (fun u => isPagetableShadow u = true)).card = 0
  · rw [if_pos hc]
    refine ⟨?_, ?_, ?_⟩
    · intro s hsm
      exact h1 s (Finset.mem_of_mem_erase hsm)
    · intro hfalse
      simp at hfalse
    · intro hoos
      simp [page_is_out_of_sync] at hoos
  · rw [if_neg hc]
    refine ⟨?_, ?_, ?_⟩
    · intro s hsm
      exact h1 s (Finset.mem_of_mem_erase hsm)
    · intro _
      obtain ⟨u, hu⟩ := Finset.card_pos.mp (Nat.pos_of_ne_zero hc)
      exact ⟨u, (Finset.mem_filter.mp hu).1⟩
    · intro hoos
      exfalso
      have hoos' : page_is_out_of_sync pg = true := by
        simpa [page_is_out_of_sync, hs] using hoos
      obtain ⟨hcard, _⟩ := h3 hoos'
      obtain ⟨a, ha⟩ := Finset.card_eq_one.mp hcard
      have hta : t = a := by
        have := ht
        rw [ha, Finset.mem_singleton] at this
        exact this
      apply hc
      rw [ha, ← hta]
      simp

/-- C4: `sh_unsync` refuses — returning 0 with the page unmarked —
exactly when the page is shadowed at a non-leaf type or already out of
sync, has multiple shadows, the vcpu is not HVM, or the domain's OOS
optimisation is inactive; and over every state reachable through the
shadow-flag operations (promote / demote / unsync / resync), an
out-of-sync page's shadow-type mask holds exactly one type and that type
is a leaf (L1) type. -/
theorem sh_unsync_oos_invariant :
    (∀ (hvm act : Bool) (pg : GPage),
      sh_unsync hvm act pg = (pg, false) ↔ sh_unsync_refuse hvm act pg = true) ∧
    (∀ pg : GPage, Reachable pg → page_is_out_of_sync pg = true →
      pg.types.card = 1 ∧ ∀ t ∈ pg.types, isL1 t = true) := by
  have hinv : ∀ pg : GPage, Reachable pg → GInv pg := by
    intro pg h
    induction h with
    | start => exact ginv_start
    | unsync hvm act _ ih => exact ginv_unsync hvm act _ ih
    | resync u _ _ ih => exact ginv_resync u _ ih
    | promote u t _ hpt _ ih => exact ginv_promote u t _ ih hpt
    | demote t _ hs ht ih => exact ginv_demote t _ ih hs ht
  constructor
  · intro hvm act pg
    constructor
    · intro heq
      by_contra hr
      have hr' : sh_unsync_refuse hvm act pg = false := by
        simpa using hr
      unfold sh_unsync at heq
      rw [hr'] at heq
      simp at heq
    · intro hr
      unfold sh_unsync
      rw [hr]
      simp
  · intro pg hreach hoos
    exact (hinv pg hreach).2.2 hoos

theorem sh_unsync_oos_invariant_witness :
    ((sh_unsync true true
        (shadow_promote false ⟨false, ∅, false, false⟩ SHType.l1_64)).1).types.card = 1 :=
  (sh_unsync_oos_invariant.2 _
    (Reachable.unsync true true
      (Reachable.promote false SHType.l1_64 Reachable.start (by decide) (by decide)))
    (by decide)).1

/-! ## Theorems: two-stage preallocation (C3) -/

/-- Total pages released by a list of reclamation events. -/
def evsum (l : List PEvent) : Nat := (l.map PEvent.amt).sum

theorem evsum_nil : evsum [] = 0 := rfl

theorem evsum_cons (e : PEvent) (l : List PEvent) :
    evsum (e :: l) = e.amt + evsum l := by simp [evsum]

theorem evsum_append (l1 l2 : List PEvent) :
    evsum (l1 ++ l2) = evsum l1 + evsum l2 := by simp [evsum]

theorem prealloc_stage1_spec (pages : Nat) (l : List Nat) : ∀ free : Nat,
    ((prealloc_stage1 pages free l).2.1 =
        free + evsum (prealloc_stage1 pages free l).2.2.2) ∧
    ((prealloc_stage1 pages free l).1 = true →
        pages ≤ (prealloc_stage1 pages free l).2.1) ∧
    (free < pages → (prealloc_stage1 pages free l).1 = false →
        (prealloc_stage1 pages free l).2.1 < pages) ∧
    (∀ e ∈ (prealloc_stage1 pages free l).2.2.2, PEvent.isUnpin e = true) ∧
    (free < pages → ∀ i, i < (prealloc_stage1 pages free l).2.2.2.length →
        free + evsum ((prealloc_stage1 pages free l).2.2.2.take i) < pages) := by
  induction l with
  | nil =>
    intro free
    refine ⟨by simp [prealloc_stage1, evsum], by simp [prealloc_stage1], ?_, ?_, ?_⟩ <;>
      simp [prealloc_stage1]
  | cons a rest ih =>
    intro free
    unfold prealloc_stage1
    by_cases hc : pages ≤ free + a
    · rw [if_pos hc]
      dsimp only
      refine ⟨by simp [evsum_cons, evsum_nil, PEvent.amt], fun _ => hc, ?_, ?_, ?_⟩
      · intro _ hfalse
        simp at hfalse
      · intro e he
        simp at he
        rw [he]
        rfl
      · intro hfree i hi
        simp only [List.length_singleton] at hi
        have hi0 : i = 0 := by omega
        subst hi0
        simpa [evsum] using hfree
    · rw [if_neg hc]
      dsimp only
      obtain ⟨ihA, ihT, ihF, ihU, ihP⟩ := ih (free + a)
      have hfa : free + a < pages := by omega
      refine ⟨?_, ?_, ?_, ?_, ?_⟩
      · rw [evsum_cons]
        rw [ihA]
        show (free + a) + _ = _
        have : PEvent.amt (.unpin a) = a := rfl
        omega
      · intro ht
        exact ihT ht
      · intro _ hf
        exact ihF hfa hf
      · intro e he
        rcases List.mem_cons.mp he with rfl | he
        · rfl
        · exact ihU e he
      · intro _ i hi
        cases i with
        | zero => simpa [evsum] using (by omega : free < pages)
        | succ j =>
          simp only [List.length_cons] at hi
          rw [List.take_succ_cons, evsum_cons]
          have := ihP hfa j (by omega)
          have ha : PEvent.amt (.unpin a) = a := rfl
          omega

theorem prealloc_stage2_spec (pages : Nat) (l : List Nat) : ∀ free : Nat,
    ((prealloc_stage2 pages free l).2.1 =
        free + evsum (prealloc_stage2 pages free l).2.2) ∧
    ((prealloc_stage2 pages free l).1 = true →
        pages ≤ (prealloc_stage2 pages free l).2.1) ∧
    (∀ e ∈ (prealloc_stage2 pages free l).2.2, PEvent.isUnpin e = false) ∧
    (free < pages → ∀ i, i < (prealloc_stage2 pages free l).2.2.length →
        free + evsum ((prealloc_stage2 pages free l).2.2.take i) < pages) := by
  induction l with
  | nil =>
    intro free
    refine ⟨by simp [prealloc_stage2, evsum], by simp [prealloc_stage2], ?_, ?_⟩ <;>
      simp [prealloc_stage2]
  | cons a rest ih =>
    intro free
    unfold prealloc_stage2
    by_cases hc : pages ≤ free + a
    · rw [if_pos hc]
      dsimp only
      refine ⟨by simp [evsum_cons, evsum_nil, PEvent.amt], fun _ => hc, ?_, ?_⟩
      · intro e he
        simp at he
        rw [he]
        rfl
      · intro hfree i hi
        simp only [List.length_singleton] at hi
        have hi0 : i = 0 := by omega
        subst hi0
        simpa [evsum] using hfree
    · rw [if_neg hc]
      dsimp only
      obtain ⟨ihA, ihT, ihU, ihP⟩ := ih (free + a)
      have hfa : free + a < pages := by omega
      refine ⟨?_, ?_, ?_, ?_⟩
      · rw [evsum_cons, ihA]
        show (free + a) + _ = _
        have : PEvent.amt (.unhook a) = a := rfl
        omega
      · intro ht
        exact ihT ht
      · intro e he
        rcases List.mem_cons.mp he with rfl | he
        · rfl
        · exact ihU e he
      · intro _ i hi
        cases i with
        | zero => simpa [evsum] using (by omega : free < pages)
        | succ j =>
          simp only [List.length_cons] at hi
          rw [List.take_succ_cons, evsum_cons]
          have := ihP hfa j (by omega)
          have ha : PEvent.amt (.unhook a) = a := rfl
          omega

theorem _shadow_prealloc_spec (pages : Nat) (st : DomState)
    (hd : st.is_dying = false) (hv : st.has_vcpu0 = true) :
    ((_shadow_prealloc pages st).1 = true →
        pages ≤ (_shadow_prealloc pages st).2.1.free_pages) ∧
    (pages ≤ st.free_pages → _shadow_prealloc pages st = (true, st, [])) ∧
    (∃ l1 l2, (_shadow_prealloc pages st).2.2 = l1 ++ l2 ∧
        (∀ e ∈ l1, PEvent.isUnpin e = true) ∧
        (∀ e ∈ l2, PEvent.isUnpin e = false)) ∧
    (∀ i, i < (_shadow_prealloc pages st).2.2.length →
        st.free_pages + evsum ((_shadow_prealloc pages st).2.2.take i) < pages) ∧
    ((_shadow_prealloc pages st).2.1.is_shutting_down = st.is_shutting_down ∧
     (_shadow_prealloc pages st).2.1.shutdown_crash = st.shutdown_crash ∧
     (_shadow_prealloc pages st).2.1.crashed = st.crashed) := by
  unfold _shadow_prealloc
  by_cases h0 : pages ≤ st.free_pages
  · rw [if_pos h0]
    refine ⟨fun _ => h0, fun _ => rfl, ⟨[], [], by simp⟩, ?_, rfl, rfl, rfl⟩
    intro i hi
    simp at hi
  · rw [if_neg h0]
    rw [hd]
    simp only [Bool.false_eq_true, if_false]
    rw [hv]
    simp only [Bool.not_true, Bool.false_eq_true, if_false]
    have hfree : st.free_pages < pages := by omega
    obtain ⟨s1A, s1T, s1F, s1U, s1P⟩ :=
      prealloc_stage1_spec pages st.pinned st.free_pages
    by_cases h1 : (prealloc_stage1 pages st.free_pages st.pinned).1 = true
    · rw [if_pos h1]
      dsimp only
      refine ⟨fun _ => s1T h1, fun hc => absurd hc h0,
        ⟨(prealloc_stage1 pages st.free_pages st.pinned).2.2.2, [], by simp, s1U,
         by simp⟩, ?_, rfl, rfl, rfl⟩
      intro i hi
      exact s1P hfree i hi
    · rw [if_neg h1]
      dsimp only
      have h1f : (prealloc_stage1 pages st.free_pages st.pinned).1 = false := by
        simpa using h1
      have hf1 : (prealloc_stage1 pages st.free_pages st.pinned).2.1 < pages :=
        s1F hfree h1f
      obtain ⟨s2A, s2T, s2U, s2P⟩ := prealloc_stage2_spec pages st.slots
        (prealloc_stage1 pages st.free_pages st.pinned).2.1
      refine ⟨fun ht => s2T ht, fun hc => absurd hc h0,
        ⟨(prealloc_stage1 pages st.free_pages st.pinned).2.2.2,
         (prealloc_stage2 pages (prealloc_stage1 pages st.free_pages st.pinned).2.1
            st.slots).2.2, rfl, s1U, s2U⟩, ?_, rfl, rfl, rfl⟩
      intro i hi
      rw [List.length_append] at hi
      by_cases hle : i ≤ (prealloc_stage1 pages st.free_pages st.pinned).2.2.2.length
      · rw [List.take_append_of_le_length hle]
        rcases Nat.lt_or_ge i
            (prealloc_stage1 pages st.free_pages st.pinned).2.2.2.length with hlt | hge
        · exact s1P hfree i hlt
        · have hieq : i = (prealloc_stage1 pages st.free_pages st.pinned).2.2.2.length := by
            omega
          rw [hieq, List.take_length]
          rw [← s1A]
          exact hf1
      · have hj : i = (prealloc_stage1 pages st.free_pages st.pinned).2.2.2.length +
            (i - (prealloc_stage1 pages st.free_pages st.pinned).2.2.2.length) := by
          omega
        rw [hj, List.take_append]
        rw [evsum_append, ← Nat.add_assoc, ← s1A]
        exact s2P hf1 _ (by omega)

/-- C3: for a non-dying domain with a vcpu, `shadow_prealloc` reclaims in
two stages — first unpinning pinned top-level shadows, then unhooking
loaded top-level shadow tables — stopping as soon as `free_pages` covers
the request (every proper prefix of the reclamation log still leaves the
pool short); on success the request is satisfied, a request already
within `free_pages` reclaims nothing, and if both stages fail the domain
is crashed (never a silent failure) unless it is already shutting down
with a crash code. -/
theorem shadow_prealloc_spec (st : DomState) (ty : SHType) (count : Nat)
    (hd : st.is_dying = false) (hv : st.has_vcpu0 = true) :
    ((shadow_prealloc st ty count).1 = true →
        shadow_size ty * count ≤ (shadow_prealloc st ty count).2.1.free_pages) ∧
    (shadow_size ty * count ≤ st.free_pages →
        shadow_prealloc st ty count = (true, st, [])) ∧
    (∃ l1 l2, (shadow_prealloc st ty count).2.2 = l1 ++ l2 ∧
        (∀ e ∈ l1, PEvent.isUnpin e = true) ∧
        (∀ e ∈ l2, PEvent.isUnpin e = false)) ∧
    (∀ i, i < (shadow_prealloc st ty count).2.2.length →
        st.free_pages + evsum ((shadow_prealloc st ty count).2.2.take i) <
          shadow_size ty * count) ∧
    ((shadow_prealloc st ty count).1 = false →
        st.is_shutting_down = false ∨ st.shutdown_crash = false →
        (shadow_prealloc st ty count).2.1.crashed = true) := by
  obtain ⟨pT, pE, pS, pP, pshut, pcode, pcr⟩ :=
    _shadow_prealloc_spec (shadow_size ty * count) st hd hv
  unfold shadow_prealloc
  rw [hd]
  simp only [Bool.false_eq_true, if_false]
  by_cases hret : (_shadow_prealloc (shadow_size ty * count) st).1 = true
  · rw [hret]
    simp only [Bool.not_true, Bool.false_and, Bool.false_eq_true, if_false]
    refine ⟨fun _ => pT hret, ?_, pS, pP, ?_⟩
    · intro hc
      rw [pE hc]
    · intro hfalse
      rw [hret] at hfalse
      simp at hfalse
  · have hret' : (_shadow_prealloc (shadow_size ty * count) st).1 = false := by
      simpa using hret
    rw [hret']
    simp only [Bool.not_false, Bool.true_and]
    by_cases hcond : (!(_shadow_prealloc (shadow_size ty * count) st).2.1.is_shutting_down ||
        !(_shadow_prealloc (shadow_size ty * count) st).2.1.shutdown_crash) = true
    · rw [if_pos hcond]
      dsimp only
      refine ⟨?_, ?_, pS, pP, fun _ _ => rfl⟩
      · intro h1
        simp at h1
      · intro hc
        have := pE hc
        rw [this] at hret'
        simp at hret'
    · rw [if_neg hcond]
      refine ⟨fun h1 => pT h1, fun hc => pE hc, pS, pP, ?_⟩
      intro _ hlive
      exfalso
      apply hcond
      rcases hlive with hsd | hsc
      · rw [pshut, hsd]
        simp
      · rw [pcode, hsc]
        simp

/-- A concrete live domain: no free pages, one pinned shadow releasing 1
page, one loaded top level releasing 2 pages. -/
def domW : DomState :=
  { total_pages := 10, free_pages := 0, p2m_pages := 0, heap := 0,
    is_dying := false, is_shutting_down := false, shutdown_crash := false,
    has_vcpu0 := true, pinned := [1], slots := [2], shadow_enabled := true,
    max_vcpus := 1, domain_tot := 0, is_hvm := true, crashed := false }

theorem shadow_prealloc_spec_witness :
    shadow_size SHType.l1_pae * 2 ≤ (shadow_prealloc domW SHType.l1_pae 2).2.1.free_pages :=
  (shadow_prealloc_spec domW SHType.l1_pae 2 rfl rfl).1 rfl

/-! ## Theorems: alloc/free pairing and shadow sizes (C7, C8) -/

theorem shadow_size_pos (ty : SHType) : 0 < shadow_size ty := by
  cases ty <;> decide

/-- C7: for a non-dying domain, `shadow_alloc` takes exactly
`shadow_size(type)` pages off the pool and `shadow_free` of the returned
shadow puts them back: `free_pages` returns to its pre-alloc value and
`total_pages` is untouched by the pair. -/
theorem shadow_alloc_free_roundtrip (st : AllocState) (ty : SHType) (back : Nat)
    (hd : st.is_dying = false) (hfree : shadow_size ty ≤ st.free_pages)
    (hlen : st.freelist.length = st.free_pages) :
    ∃ obj st1, shadow_alloc st ty back = some (obj, st1) ∧
      st1.free_pages = st.free_pages - shadow_size ty ∧
      st1.total_pages = st.total_pages ∧
      ∃ st2, shadow_free st1 obj = some st2 ∧
        st2.free_pages = st.free_pages ∧ st2.total_pages = st.total_pages := by
  have hpos : 0 < shadow_size ty := shadow_size_pos ty
  have hnlt : ¬st.free_pages < shadow_size ty := by omega
  have hnlt2 : ¬st.freelist.length < shadow_size ty := by omega
  have htake : (st.freelist.take (shadow_size ty)).length = shadow_size ty := by
    rw [List.length_take]
    omega
  have hinitlen : ((st.freelist.take (shadow_size ty)).map fun sp =>
      { sp with shtype := some ty, pinned := false, count := 0,
                head := false, back := back }).length = shadow_size ty := by
    rw [List.length_map]
    exact htake
  obtain ⟨hh, rest, hrev⟩ : ∃ hh rest,
      ((st.freelist.take (shadow_size ty)).map fun sp =>
        { sp with shtype := some ty, pinned := false, count := 0,
                  head := false, back := back }).reverse = hh :: rest := by
    rcases hr : ((st.freelist.take (shadow_size ty)).map fun sp =>
        { sp with shtype := some ty, pinned := false, count := 0,
                  head := false, back := back }).reverse with _ | ⟨x, xs⟩
    · exfalso
      have := congrArg List.length hr
      rw [List.length_reverse, hinitlen] at this
      simp at this
      omega
    · exact ⟨x, xs, hr⟩
  have hhtype : hh.shtype = some ty := by
    have hmem : hh ∈ ((st.freelist.take (shadow_size ty)).map fun sp =>
        { sp with shtype := some ty, pinned := false, count := 0,
                  head := false, back := back }) := by
      rw [← List.mem_reverse, hrev]
      exact List.mem_cons_self hh rest
    obtain ⟨sp, -, hsp⟩ := List.mem_map.mp hmem
    rw [← hsp]
  refine ⟨(if isPagetableShadow ty then { hh with head := true } else hh) :: rest,
    { st with freelist := st.freelist.drop (shadow_size ty),
              free_pages := st.free_pages - shadow_size ty }, ?_, rfl, rfl, ?_⟩
  · unfold shadow_alloc
    rw [if_neg hnlt, if_neg hnlt2]
    dsimp only
    rw [hrev]
  · unfold shadow_free
    dsimp only
    have hsp : (if isPagetableShadow ty then { hh with head := true } else hh).shtype
        = some ty := by
      by_cases hpt : isPagetableShadow ty = true
      · rw [if_pos hpt]
        exact hhtype
      · rw [if_neg hpt]
        exact hhtype
    rw [hsp]
    dsimp only
    have hassert : ¬(!((if isPagetableShadow ty then { hh with head := true } else hh).head
        || !isPagetableShadow ty)) = true := by
      by_cases hpt : isPagetableShadow ty = true
      · rw [if_pos hpt]
        simp
      · rw [if_neg hpt]
        simp only [Bool.not_eq_true] at hpt
        rw [hpt]
        simp
    rw [if_neg hassert]
    rw [hd]
    simp only [Bool.false_eq_true, if_false]
    refine ⟨_, rfl, ?_, rfl⟩
    show st.free_pages - shadow_size ty + shadow_size ty = st.free_pages
    omega

/-- A concrete pool of four free pages. -/
def allocW : AllocState :=
  { freelist :=
      [ { mfn := 1, shtype := none, pinned := false, count := 0, head := false, back := 0 },
        { mfn := 2, shtype := none, pinned := false, count := 0, head := false, back := 0 },
        { mfn := 3, shtype := none, pinned := false, count := 0, head := false, back := 0 },
        { mfn := 4, shtype := none, pinned := false, count := 0, head := false, back := 0 } ],
    free_pages := 4, total_pages := 6, is_dying := false }

theorem shadow_alloc_free_roundtrip_witness :
    ∃ obj st1, shadow_alloc allocW SHType.l1_32 7 = some (obj, st1) ∧
      st1.free_pages = allocW.free_pages - shadow_size SHType.l1_32 ∧
      st1.total_pages = allocW.total_pages ∧
      ∃ st2, shadow_free st1 obj = some st2 ∧
        st2.free_pages = allocW.free_pages ∧ st2.total_pages = allocW.total_pages :=
  shadow_alloc_free_roundtrip allocW SHType.l1_32 7 rfl (by decide) rfl

/-- A list of machine frame numbers occupies contiguous pages: it is a
permutation of a block `m, m+1, ...` of consecutive mfns. -/
def mfnsContiguous (l : List Nat) : Prop :=
  ∃ m, l.Perm (List.range' m l.length)

/-- A concrete pool whose two free pages sit at the non-adjacent machine
frames 10 and 20. -/
def allocC : AllocState :=
  { freelist :=
      [ { mfn := 10, shtype := none, pinned := false, count := 0, head := false, back := 0 },
        { mfn := 20, shtype := none, pinned := false, count := 0, head := false, back := 0 } ],
    free_pages := 2, total_pages := 2, is_dying := false }

/-- C8 counterexample: `shadow_alloc` of a two-page shadow
(`SH_type_l1_32_shadow`) from a free list whose pages sit at machine
frames 10 and 20 succeeds and returns a shadow object occupying exactly
those two non-adjacent frames — the object does *not* occupy contiguous
pages.  `shadow_alloc` simply pops successive free-list heads, whatever
their frame numbers, and `shadow_free` walks the object's page links,
never adjacent mfns (common.c lines 1150-1165, 1221-1222); the
"(contiguous, aligned)" comment at line 1104 is stale — the block comment
at lines 858-866 states that multi-page shadows are not contiguous in
memory. -/
theorem shadow_alloc_contiguity_counterexample :
    ((shadow_alloc allocC SHType.l1_32 0).map fun r => r.1.map PageInfo.mfn) =
        some [20, 10] ∧
    ¬mfnsContiguous [20, 10] := by
  constructor
  · rfl
  · rintro ⟨m, hperm⟩
    have h20 : (20 : Nat) ∈ List.range' m 2 := hperm.mem_iff.mp (by simp)
    have h10 : (10 : Nat) ∈ List.range' m 2 := hperm.mem_iff.mp (by simp)
    rw [List.mem_range'_1] at h20 h10
    omega

/-- C8 amended: every shadow type's size is one of 1, 2, 4 or 8 pages
(the fixed `sh_type_to_size` table), and a successful `shadow_alloc`
removes exactly that many pages from the free list: the counter and the
list itself shrink by `shadow_size(type)`, and the returned shadow
object consists of exactly the first `shadow_size(type)` free-list pages
(in reverse removal order) — whatever their machine frame numbers, with
no contiguity guarantee. -/
theorem shadow_alloc_size_spec :
    (∀ ty : SHType, sh_type_to_size ty = 1 ∨ sh_type_to_size ty = 2 ∨
        sh_type_to_size ty = 4 ∨ sh_type_to_size ty = 8) ∧
    (∀ (st : AllocState) (ty : SHType) (back : Nat) (obj : List PageInfo)
        (st1 : AllocState),
      shadow_alloc st ty back = some (obj, st1) →
      st1.free_pages = st.free_pages - shadow_size ty ∧
      st1.freelist.length = st.freelist.length - shadow_size ty ∧
      obj.length = shadow_size ty ∧
      obj.map PageInfo.mfn =
        ((st.freelist.take (shadow_size ty)).map PageInfo.mfn).reverse) := by
  constructor
  · intro ty
    cases ty <;> simp [sh_type_to_size]
  · intro st ty back obj st1 h
    unfold shadow_alloc at h
    by_cases h1 : st.free_pages < shadow_size ty
    · rw [if_pos h1] at h
      simp at h
    · rw [if_neg h1] at h
      by_cases h2 : st.freelist.length < shadow_size ty
      · rw [if_pos h2] at h
        simp at h
      · rw [if_neg h2] at h
        dsimp only at h
        rcases hrev : ((st.freelist.take (shadow_size ty)).map fun sp =>
            { sp with shtype := some ty, pinned := false, count := 0,
                      head := false, back := back }).reverse with _ | ⟨hh, rest⟩
        · rw [hrev] at h
          simp at h
        · rw [hrev] at h
          have hlen : (hh :: rest).length = shadow_size ty := by
            have := congrArg List.length hrev
            rw [List.length_reverse, List.length_map, List.length_take] at this
            rw [← this]
            omega
          injection h with h'
          injection h' with hobj hst1
          subst hobj
          subst hst1
          refine ⟨rfl, ?_, ?_, ?_⟩
          · show (st.freelist.drop (shadow_size ty)).length = _
            rw [List.length_drop]
          · show ((if isPagetableShadow ty then { hh with head := true } else hh)
              :: rest).length = shadow_size ty
            rw [← hlen]
            simp
          · show ((if isPagetableShadow ty then { hh with head := true } else hh)
              :: rest).map PageInfo.mfn = _
            have hhd : ((if isPagetableShadow ty then { hh with head := true } else hh)
                :: rest).map PageInfo.mfn = (hh :: rest).map PageInfo.mfn := by
              by_cases hpt : isPagetableShadow ty = true
              · rw [if_pos hpt]
                rfl
              · rw [if_neg hpt]
            rw [hhd, ← hrev, List.map_reverse, List.map_map]
            rfl

theorem shadow_alloc_size_spec_witness :
    ∃ obj st1, shadow_alloc allocW SHType.l1_32 7 = some (obj, st1) ∧
      st1.freelist.length = allocW.freelist.length - shadow_size SHType.l1_32 ∧
      obj.length = shadow_size SHType.l1_32 ∧
      obj.map PageInfo.mfn =
        ((allocW.freelist.take (shadow_size SHType.l1_32)).map PageInfo.mfn).reverse := by
  rcases ha : shadow_alloc allocW SHType.l1_32 7 with _ | ⟨obj, st1⟩
  · exact absurd ha (by decide)
  · have h := shadow_alloc_size_spec.2 allocW SHType.l1_32 7 obj st1 ha
    exact ⟨obj, st1, rfl, h.2.1, h.2.2.1, h.2.2.2⟩

/-! ## Theorems: write-access removal return contract (C2) -/

/-- C2 counterexample: `level = 1`, two outstanding writable references
of which the heuristics sever one (`countH = 1`) and the brute-force
walk cannot find the other (`countB = 1`).  The function calls
`domain_crash` *and still returns 1* — it does not crash "instead of
returning". -/
theorem sh_remove_write_access_counterexample :
    sh_remove_write_access true 1 1 1
      { is_pagetable := false, oos_may_write := false,
        type_writable := true, count := 2 } = (1, true) := by
  decide

/-- C2 amended: `sh_remove_write_access` returns 0 when refcounting is
off, when the page has no outstanding writable typed references, or when
it is already a page table without the oos-may-write exemption; it
returns 1 when every writable reference was severed; it returns -1
exactly when `level_hint = 0` and some writable reference remained after
the brute-force walk; and when `level_hint` is nonzero and a writable
reference remains after the brute-force walk it crashes the domain and
still returns 1. -/
theorem sh_remove_write_access_contract (refcounts : Bool) (level countH countB : Nat)
    (pg : WraPage) (hBH : countB ≤ countH) (hHc : countH ≤ pg.count) :
    (refcounts = false →
        sh_remove_write_access refcounts level countH countB pg = (0, false)) ∧
    (pg.count = 0 →
        sh_remove_write_access refcounts level countH countB pg = (0, false)) ∧
    (pg.is_pagetable = true → pg.oos_may_write = false →
        sh_remove_write_access refcounts level countH countB pg = (0, false)) ∧
    (refcounts = true → (pg.is_pagetable && !pg.oos_may_write) = false →
        0 < pg.count → countB = 0 →
        (sh_remove_write_access refcounts level countH countB pg).1 = 1) ∧
    ((sh_remove_write_access refcounts level countH countB pg).1 = -1 ↔
        (refcounts = true ∧ (pg.is_pagetable && !pg.oos_may_write) = false ∧
         0 < pg.count ∧ countB ≠ 0 ∧ level = 0)) ∧
    (refcounts = true → (pg.is_pagetable && !pg.oos_may_write) = false →
        0 < pg.count → countB ≠ 0 → level ≠ 0 →
        sh_remove_write_access refcounts level countH countB pg = (1, true)) := by
  unfold sh_remove_write_access
  by_cases hrc : refcounts = true
  · rw [hrc]
    simp only [Bool.not_true, Bool.false_eq_true, if_false]
    by_cases hguard : ((pg.is_pagetable && !pg.oos_may_write) || decide (pg.count = 0)) = true
    · rw [if_pos hguard]
      rcases Bool.or_eq_true_iff.mp hguard with hg | hg
      · refine ⟨fun h => absurd h (by simp), fun _ => rfl, fun _ _ => rfl,
          ?_, ?_, ?_⟩
        · intro _ hgf _ _
          rw [hg] at hgf
          simp at hgf
        · constructor
          · intro habs
            simp at habs
          · rintro ⟨-, hgf, -, -, -⟩
            rw [hg] at hgf
            simp at hgf
        · intro _ hgf _ _ _
          rw [hg] at hgf
          simp at hgf
      · have hcnt0 : pg.count = 0 := by simpa using hg
        refine ⟨fun h => absurd h (by simp), fun _ => rfl, fun _ _ => rfl,
          ?_, ?_, ?_⟩
        · intro _ _ hpos _
          omega
        · constructor
          · intro habs
            simp at habs
          · rintro ⟨-, -, hpos, -, -⟩
            omega
        · intro _ _ hpos _ _
          omega
    · rw [if_neg hguard]
      have hg2 : (pg.is_pagetable = true → pg.oos_may_write = true) ∧ ¬pg.count = 0 := by
        simpa using hguard
      have hguard' : (pg.is_pagetable && !pg.oos_may_write) = false ∧ pg.count ≠ 0 := by
        refine ⟨?_, hg2.2⟩
        cases hpt : pg.is_pagetable
        · simp
        · simp [hg2.1 hpt]
      by_cases hH : countH = 0
      · rw [if_pos hH]
        have hB0 : countB = 0 := by omega
        refine ⟨fun h => absurd h (by simp), fun h => absurd h hguard'.2,
          ?_, fun _ _ _ _ => rfl, ?_, ?_⟩
        · intro hpt hmw
          exfalso
          have : (pg.is_pagetable && !pg.oos_may_write) = true := by
            rw [hpt, hmw]
            rfl
          rw [this] at hguard'
          simp at hguard'
        · constructor
          · intro habs
            simp at habs
          · rintro ⟨-, -, -, hBne, -⟩
            exact absurd hB0 hBne
        · intro _ _ _ hBne _
          exact absurd hB0 hBne
      · rw [if_neg hH]
        by_cases hB : countB ≠ 0
        · rw [if_pos hB]
          by_cases hl : level = 0
          · rw [if_pos hl]
            refine ⟨fun h => absurd h (by simp), fun h => absurd h hguard'.2,
              ?_, ?_, ?_, ?_⟩
            · intro hpt hmw
              exfalso
              have : (pg.is_pagetable && !pg.oos_may_write) = true := by
                rw [hpt, hmw]
                rfl
              rw [this] at hguard'
              simp at hguard'
            · intro _ _ _ hB0
              exact absurd hB0 hB
            · exact ⟨fun _ => ⟨by trivial, hguard'.1, by omega, hB, hl⟩, fun _ => rfl⟩
            · intro _ _ _ _ hlne
              exact absurd hl hlne
          · rw [if_neg hl]
            refine ⟨fun h => absurd h (by simp), fun h => absurd h hguard'.2,
              ?_, ?_, ?_, fun _ _ _ _ _ => rfl⟩
            · intro hpt hmw
              exfalso
              have : (pg.is_pagetable && !pg.oos_may_write) = true := by
                rw [hpt, hmw]
                rfl
              rw [this] at hguard'
              simp at hguard'
            · intro _ _ _ hB0
              exact absurd hB0 hB
            · constructor
              · intro habs
                simp at habs
              · rintro ⟨-, -, -, -, hl0⟩
                exact absurd hl0 hl
        · have hB0 : countB = 0 := by simpa using hB
          rw [if_neg (by simpa using hB)]
          refine ⟨fun h => absurd h (by simp), fun h => absurd h hguard'.2,
            ?_, fun _ _ _ _ => rfl, ?_, ?_⟩
          · intro hpt hmw
            exfalso
            have : (pg.is_pagetable && !pg.oos_may_write) = true := by
              rw [hpt, hmw]
              rfl
            rw [this] at hguard'
            simp at hguard'
          · constructor
            · intro habs
              simp at habs
            · rintro ⟨-, -, -, hBne, -⟩
              exact absurd hB0 hBne
          · intro _ _ _ hBne _
            exact absurd hB0 hBne
  · have hrcf : refcounts = false := by simpa using hrc
    subst hrcf
    refine ⟨?_, ?_, ?_, ?_, ?_, ?_⟩ <;> simp

theorem sh_remove_write_access_contract_witness :
    (sh_remove_write_access true 0 2 1
      { is_pagetable := false, oos_may_write := false,
        type_writable := true, count := 2 }).1 = -1 :=
  (sh_remove_write_access_contract true 0 2 1
    { is_pagetable := false, oos_may_write := false,
      type_writable := true, count := 2 } (by decide) (by decide)).2.2.2.2.1.mpr
    ⟨rfl, by decide, by decide, by decide, rfl⟩

/-! ## Theorems: pool resizing (C9, C10) -/

theorem sh_min_allocation_ge_p2m (st : DomState) :
    st.p2m_pages ≤ sh_min_allocation st := by
  unfold sh_min_allocation shadow_min_acceptable_pages
  have := le_max_right
    (max (st.domain_tot / 256) (if st.is_hvm then CONFIG_PAGING_LEVELS + 2 else 0)
      + (if st.is_hvm then 1 else 0)) st.p2m_pages
  omega

theorem sal_loop_reaches (pages : Nat) (hasPre : Bool) (pr : Nat → Bool)
    (hpr : ∀ k, pr k = false) :
    ∀ (n : Nat) (st : DomState) (k : Nat),
      (pages - st.total_pages) + (st.total_pages - pages) ≤ n →
      st.total_pages - pages ≤ st.free_pages →
      pages - st.total_pages ≤ st.heap →
      (sal_loop pages hasPre pr k st).1 = 0 ∧
      (sal_loop pages hasPre pr k st).2.1 = false ∧
      (sal_loop pages hasPre pr k st).2.2.total_pages = pages ∧
      (sal_loop pages hasPre pr k st).2.2.p2m_pages = st.p2m_pages := by
  intro n
  induction n with
  | zero =>
    intro st k hm hf hh
    have heq : st.total_pages = pages := by omega
    unfold sal_loop
    rw [if_neg (by omega : ¬st.total_pages < pages),
        if_neg (by omega : ¬pages < st.total_pages)]
    exact ⟨rfl, rfl, heq, rfl⟩
  | succ n ih =>
    intro st k hm hf hh
    by_cases hlt : st.total_pages < pages
    · have hheap : ¬st.heap = 0 := by omega
      unfold sal_loop
      rw [if_pos hlt, if_neg hheap]
      dsimp only
      rw [hpr k]
      simp only [Bool.and_false, Bool.false_eq_true, if_false]
      have hrec := ih
        { st with heap := st.heap - 1, free_pages := st.free_pages + 1,
                  total_pages := st.total_pages + 1 } (k + 1)
        (by dsimp only; omega) (by dsimp only; omega) (by dsimp only; omega)
      exact ⟨hrec.1, hrec.2.1, hrec.2.2.1, hrec.2.2.2⟩
    · by_cases hgt : pages < st.total_pages
      · have hfree1 : 1 ≤ st.free_pages := by omega
        have hpre1 : _shadow_prealloc 1 st = (true, st, []) := by
          unfold _shadow_prealloc
          rw [if_pos hfree1]
        have hstep : sal_shrink_step st =
            (true, { st with free_pages := st.free_pages - 1,
                             total_pages := st.total_pages - 1 }) := by
          unfold sal_shrink_step
          rw [hpre1]
          rfl
        unfold sal_loop
        rw [if_neg hlt, if_pos hgt]
        split
        · next st1 heq =>
            rw [hstep] at heq
            simp at heq
        · next st' heq =>
            rw [hstep] at heq
            injection heq with h1 h2
            subst h2
            rw [hpr k]
            simp only [Bool.and_false, Bool.false_eq_true, if_false]
            have hrec := ih
              { st with free_pages := st.free_pages - 1,
                        total_pages := st.total_pages - 1 } (k + 1)
              (by dsimp only; omega) (by dsimp only; omega) (by dsimp only; omega)
            exact ⟨hrec.1, hrec.2.1, hrec.2.2.1, hrec.2.2.2⟩
      · have heq : st.total_pages = pages := by omega
        unfold sal_loop
        rw [if_neg hlt, if_neg hgt]
        exact ⟨rfl, rfl, heq, rfl⟩

/-- C9: a nonzero target below `sh_min_allocation` is silently clamped up
to the minimum before resizing: under no preemption, and with enough
domheap pages and free pool pages for the resize to run to completion,
`shadow_set_allocation` returns 0 (success, not an error) and the pool
ends at exactly the minimum (shadow pool plus p2m pages equals
`sh_min_allocation`) — never at a nonzero value below it. -/
theorem shadow_set_allocation_clamp (st : DomState) (target : Nat) (hasPre : Bool)
    (pr : Nat → Bool) (hpr : ∀ k, pr k = false)
    (h0 : 0 < target) (hlt : target < sh_min_allocation st)
    (hheap : sh_min_allocation st - st.p2m_pages ≤ st.heap + st.total_pages)
    (hfree : st.total_pages - (sh_min_allocation st - st.p2m_pages) ≤ st.free_pages) :
    (shadow_set_allocation st target hasPre pr).1 = 0 ∧
    (shadow_set_allocation st target hasPre pr).2.1 = false ∧
    (shadow_set_allocation st target hasPre pr).2.2.p2m_pages = st.p2m_pages ∧
    (shadow_set_allocation st target hasPre pr).2.2.total_pages + st.p2m_pages
      = sh_min_allocation st := by
  have hp2m := sh_min_allocation_ge_p2m st
  unfold shadow_set_allocation
  dsimp only
  rw [if_pos h0]
  have hmax : max target (sh_min_allocation st) = sh_min_allocation st :=
    max_eq_right (le_of_lt hlt)
  rw [hmax]
  obtain ⟨r1, r2, r3, r4⟩ := sal_loop_reaches (sh_min_allocation st - st.p2m_pages)
    hasPre pr hpr
    ((sh_min_allocation st - st.p2m_pages - st.total_pages) +
      (st.total_pages - (sh_min_allocation st - st.p2m_pages)))
    st 0 (le_refl _) hfree (by omega)
  exact ⟨r1, r2, r4, by omega⟩

/-- A concrete small domain: empty pool, plenty of domheap. -/
def domW2 : DomState :=
  { total_pages := 0, free_pages := 0, p2m_pages := 0, heap := 200,
    is_dying := false, is_shutting_down := false, shutdown_crash := false,
    has_vcpu0 := true, pinned := [], slots := [], shadow_enabled := true,
    max_vcpus := 1, domain_tot := 0, is_hvm := false, crashed := false }

theorem shadow_set_allocation_clamp_witness :
    (shadow_set_allocation domW2 5 false (fun _ => false)).2.2.total_pages +
      domW2.p2m_pages = sh_min_allocation domW2 :=
  (shadow_set_allocation_clamp domW2 5 false (fun _ => false) (fun _ => rfl)
    (by decide) (by decide) (by decide) (by decide)).2.2.2

/-- C10: the control-plane SET_ALLOCATION operation rejects a zero
megabyte target with `-EINVAL` whenever shadow mode is enabled, leaving
the state untouched; with shadow mode off, a zero target bypasses the
minimum clamp entirely (the clamp applies only to nonzero targets) and
the pool is shrunk all the way to zero — strictly below the positive
computed minimum. -/
theorem shadow_domctl_zero_allocation (st : DomState) (pr : Nat → Bool) :
    (st.shadow_enabled = true →
      shadow_domctl_set_allocation 0 pr st = (-EINVAL, false, st)) ∧
    ((∀ k, pr k = false) → st.shadow_enabled = false →
      st.total_pages ≤ st.free_pages → 0 < st.max_vcpus →
      (shadow_domctl_set_allocation 0 pr st).1 = 0 ∧
      (shadow_domctl_set_allocation 0 pr st).2.2.total_pages = 0 ∧
      (shadow_domctl_set_allocation 0 pr st).2.2.total_pages <
        sh_min_allocation st) := by
  constructor
  · intro hen
    unfold shadow_domctl_set_allocation
    rw [if_pos ⟨rfl, hen⟩]
  · intro hpr hen hfree hv
    have hminpos : 0 < sh_min_allocation st := by
      unfold sh_min_allocation shadow_min_acceptable_pages
      have := Nat.mul_pos hv (by norm_num : (0:Nat) < 128)
      omega
    unfold shadow_domctl_set_allocation
    rw [if_neg (by simp [hen])]
    unfold shadow_set_allocation
    dsimp only
    rw [if_neg (by norm_num : ¬(0:Nat) < 0 * 256)]
    obtain ⟨r1, r2, r3, r4⟩ := sal_loop_reaches 0 true pr hpr
      ((0 - st.total_pages) + (st.total_pages - 0)) st 0
      (le_refl _) (by omega) (by omega)
    refine ⟨r1, r3, ?_⟩
    rw [r3]
    exact hminpos

theorem shadow_domctl_zero_allocation_witness :
    shadow_domctl_set_allocation 0 (fun _ => false) domW = (-EINVAL, false, domW) :=
  (shadow_domctl_zero_allocation domW (fun _ => false)).1 rfl

end XenShadow
